import Mathlib

/-!
Shallow embedding of the hydra arbitrage engine (Python sources under
`src/`) and proofs about it.

Modelling conventions:
* Python `Decimal` values are modelled as exact rationals `ℚ`.  All the
  quantities handled by the program fit comfortably inside the default
  28-significant-digit Decimal context, where `+`, `-`, `*`, `//`, `min`
  and `quantize` are exact, so `ℚ` is a faithful model.
* `Decimal.__floordiv__` truncates the quotient toward zero; `quantize`
  with `ROUND_DOWN` also rounds toward zero.  `dtrunc`, `dfloordiv` and
  `quantize8` below reproduce that.
* Python `dict`s keyed by strings are modelled as association lists with
  `List.lookup`; `dict.get(k, d)` becomes `(lookup k).getD d`.
* Fallible I/O (REST calls, order lookups) is modelled by explicit
  oracle parameters returning `Option` values.
-/

namespace Hydra

/-- Integer part of a rational, rounding toward zero — the rounding used by
`Decimal.to_integral_value`/`ROUND_DOWN`. -/
def dtrunc (x : ℚ) : ℤ :=
  if 0 ≤ x then ⌊x⌋ else ⌈x⌉

/-- Python `Decimal.__floordiv__`: the quotient truncated toward zero,
returned as an (integral) decimal.  (In the source a zero divisor raises
`DivisionByZero`; every theorem that exercises this operation carries a
non-zero-step hypothesis.) -/
def dfloordiv (a b : ℚ) : ℚ :=
  ((dtrunc (a / b) : ℤ) : ℚ)

/-- `x.quantize(Decimal("0.00000001"), rounding=ROUND_DOWN)`: round toward
zero to 8 decimal places. -/
def quantize8 (x : ℚ) : ℚ :=
  ((dtrunc (x * 100000000) : ℤ) : ℚ) / 100000000

/-- One entry of a symbol's `filters` list in the exchange metadata.
Only the fields read by `adjust_quantity_to_filters`
(`src/risk_manager.py:800-836`) are modelled. -/
structure SymbolFilter where
  filterType : String
  minQty : ℚ
  maxQty : ℚ
  stepSize : ℚ
deriving DecidableEq, Repr

/-- `RiskManager.adjust_quantity_to_filters` (`src/risk_manager.py:800-836`).
The first argument is the result of `get_symbol_filters(symbol)`: `none`
models Python `None` (no filters obtainable).  An empty list is falsy in
Python and is returned-through exactly like `None`; here it falls to the
`find?` branch, which likewise returns `quantity`. -/
def adjust_quantity_to_filters (filters : Option (List SymbolFilter))
    (quantity : ℚ) : ℚ :=
  match filters with
  | none => quantity
  | some fs =>
    match fs.find? (fun f => f.filterType = "LOT_SIZE") with
    | none => quantity
    | some f =>
      if quantity < f.minQty then 0
      else
        let q := min quantity f.maxQty
        quantize8 (dfloordiv (q - f.minQty) f.stepSize * f.stepSize + f.minQty)

/-! ### Arithmetic facts about the Decimal model -/

theorem dtrunc_le_self {x : ℚ} (hx : 0 ≤ x) : (dtrunc x : ℚ) ≤ x := by
  rw [dtrunc, if_pos hx]
  exact Int.floor_le x

theorem le_dtrunc_of_nonpos {x : ℚ} (hx : x ≤ 0) : x ≤ (dtrunc x : ℚ) := by
  rw [dtrunc]
  split
  · exact le_antisymm hx (by assumption) ▸ by simp
  · exact Int.le_ceil x

theorem dtrunc_nonpos {x : ℚ} (hx : x ≤ 0) : (dtrunc x : ℚ) ≤ 0 := by
  rw [dtrunc]
  split
  · have : x = 0 := le_antisymm hx (by assumption)
    simp [this]
  · exact_mod_cast Int.ceil_le.2 (by exact_mod_cast hx)

theorem dtrunc_nonneg {x : ℚ} (hx : 0 ≤ x) : (0 : ℚ) ≤ (dtrunc x : ℚ) := by
  rw [dtrunc, if_pos hx]
  exact_mod_cast Int.floor_nonneg.2 hx

theorem dtrunc_intCast (n : ℤ) : dtrunc (n : ℚ) = n := by
  rw [dtrunc]
  split <;> simp

/-- `(d // s) * s ≤ d` for a nonnegative dividend (any nonzero divisor sign). -/
theorem dfloordiv_mul_le {d s : ℚ} (hd : 0 ≤ d) (hs : s ≠ 0) :
    dfloordiv d s * s ≤ d := by
  rw [dfloordiv]
  rcases lt_or_gt_of_ne hs with hneg | hpos
  · have hq : d / s ≤ 0 := div_nonpos_of_nonneg_of_nonpos hd hneg.le
    have h1 : d / s ≤ (dtrunc (d / s) : ℚ) := le_dtrunc_of_nonpos hq
    calc (dtrunc (d / s) : ℚ) * s ≤ d / s * s :=
          mul_le_mul_of_nonpos_right h1 hneg.le
      _ = d := div_mul_cancel₀ d hs
  · have hq : 0 ≤ d / s := div_nonneg hd hpos.le
    have h1 : (dtrunc (d / s) : ℚ) ≤ d / s := dtrunc_le_self hq
    calc (dtrunc (d / s) : ℚ) * s ≤ d / s * s :=
          mul_le_mul_of_nonneg_right h1 hpos.le
      _ = d := div_mul_cancel₀ d hs

/-- `(d // s) * s ≤ 0` for a negative dividend. -/
theorem dfloordiv_mul_nonpos {d s : ℚ} (hd : d < 0) (hs : s ≠ 0) :
    dfloordiv d s * s ≤ 0 := by
  rw [dfloordiv]
  rcases lt_or_gt_of_ne hs with hneg | hpos
  · have hq : 0 ≤ d / s := div_nonneg_of_nonpos hd.le hneg.le
    exact mul_nonpos_of_nonneg_of_nonpos (dtrunc_nonneg hq) hneg.le
  · have hq : d / s ≤ 0 := div_nonpos_of_nonpos_of_nonneg hd.le hpos.le
    exact mul_nonpos_of_nonpos_of_nonneg (dtrunc_nonpos hq) hpos.le

theorem quantize8_le_self {x : ℚ} (hx : 0 ≤ x) : quantize8 x ≤ x := by
  rw [quantize8]
  have h1 : (dtrunc (x * 100000000) : ℚ) ≤ x * 100000000 :=
    dtrunc_le_self (by positivity)
  linarith [div_le_div_of_nonneg_right (c := (100000000 : ℚ)) h1 (by norm_num)]

theorem quantize8_nonpos {x : ℚ} (hx : x ≤ 0) : quantize8 x ≤ 0 := by
  rw [quantize8]
  have h1 : (dtrunc (x * 100000000) : ℚ) ≤ 0 :=
    dtrunc_nonpos (by nlinarith)
  exact div_nonpos_of_nonpos_of_nonneg h1 (by norm_num)

/-- A value representable in 8 decimal places. -/
def IsMul8 (x : ℚ) : Prop := ∃ n : ℤ, x * 100000000 = (n : ℚ)

theorem quantize8_eq_self {x : ℚ} (hx : IsMul8 x) : quantize8 x = x := by
  obtain ⟨n, hn⟩ := hx
  rw [quantize8, hn, dtrunc_intCast, ← hn]
  field_simp

theorem IsMul8.add {x y : ℚ} (hx : IsMul8 x) (hy : IsMul8 y) : IsMul8 (x + y) := by
  obtain ⟨n, hn⟩ := hx
  obtain ⟨m, hm⟩ := hy
  exact ⟨n + m, by push_cast [add_mul, hn, hm]; ring⟩

theorem IsMul8.int_mul {x : ℚ} (hx : IsMul8 x) (k : ℤ) : IsMul8 ((k : ℚ) * x) := by
  obtain ⟨n, hn⟩ := hx
  exact ⟨k * n, by push_cast [mul_assoc, hn]; ring⟩

/-- Unfolding lemma: when the filter list resolves to a LOT_SIZE entry `f`,
`adjust_quantity_to_filters` computes the clamp-snap-quantize expression. -/
theorem adjust_eq_of_find {fs : List SymbolFilter} {f : SymbolFilter} (q : ℚ)
    (h : fs.find? (fun g => g.filterType = "LOT_SIZE") = some f) :
    adjust_quantity_to_filters (some fs) q =
      if q < f.minQty then 0
      else quantize8 (dfloordiv (min q f.maxQty - f.minQty) f.stepSize * f.stepSize
        + f.minQty) := by
  simp only [adjust_quantity_to_filters, h]

theorem find_lot_size_append (pre post : List SymbolFilter) (f : SymbolFilter)
    (hf : f.filterType = "LOT_SIZE")
    (hpre : ∀ g ∈ pre, g.filterType ≠ "LOT_SIZE") :
    (pre ++ f :: post).find? (fun g => g.filterType = "LOT_SIZE") = some f := by
  induction pre with
  | nil => simp [List.find?, hf]
  | cons g rest ih =>
    rw [List.cons_append, List.find?_cons_of_neg]
    · exact ih (fun x hx => hpre x (by simp [hx]))
    · simpa using hpre g (by simp)

/-- C2: for a symbol whose filter list carries a LOT_SIZE entry
(`f` being the first such entry), `adjust_quantity_to_filters` returns 0
below `min_qty` and otherwise clamps to `max_qty`, snaps down to the step
grid above `min_qty` (Decimal `//` coincides with the mathematical floor
here) and rounds the result down to 8 decimal places; in particular with
min 0.001, step 0.0001, max 100, an input of 0.00123456 yields exactly
0.0012. -/
theorem c2_lot_size_adjustment
    (pre post : List SymbolFilter) (f : SymbolFilter) (q : ℚ)
    (hf : f.filterType = "LOT_SIZE")
    (hpre : ∀ g ∈ pre, g.filterType ≠ "LOT_SIZE")
    (hs : 0 < f.stepSize) (hmM : f.minQty ≤ f.maxQty) :
    (q < f.minQty →
      adjust_quantity_to_filters (some (pre ++ f :: post)) q = 0) ∧
    (f.minQty ≤ q →
      adjust_quantity_to_filters (some (pre ++ f :: post)) q =
        quantize8 ((⌊(min q f.maxQty - f.minQty) / f.stepSize⌋ : ℚ)
          * f.stepSize + f.minQty)) ∧
    adjust_quantity_to_filters
      (some [⟨"LOT_SIZE", 1/1000, 100, 1/10000⟩]) (123456/100000000)
      = 12/10000 := by
  refine ⟨?_, ?_, ?_⟩
  · intro hqm
    rw [adjust_eq_of_find q (find_lot_size_append pre post f hf hpre),
      if_pos hqm]
  · intro hqm
    rw [adjust_eq_of_find q (find_lot_size_append pre post f hf hpre),
      if_neg (not_lt.2 hqm)]
    have hd : 0 ≤ min q f.maxQty - f.minQty := by
      simp only [sub_nonneg, le_min_iff]
      exact ⟨hqm, hmM⟩
    rw [dfloordiv, dtrunc, if_pos (div_nonneg hd hs.le)]
  · norm_num [adjust_quantity_to_filters, quantize8, dfloordiv, dtrunc,
      List.find?]

theorem c2_lot_size_adjustment_witness :
    adjust_quantity_to_filters
      (some [⟨"LOT_SIZE", 1/1000, 100, 1/10000⟩]) (1/2000) = 0 ∧
    adjust_quantity_to_filters
      (some [⟨"LOT_SIZE", 1/1000, 100, 1/10000⟩]) (123456/100000000)
      = 12/10000 :=
  ⟨(c2_lot_size_adjustment [] [] ⟨"LOT_SIZE", 1/1000, 100, 1/10000⟩
      (1/2000) rfl (by simp) (by norm_num) (by norm_num)).1 (by norm_num),
   (c2_lot_size_adjustment [] [] ⟨"LOT_SIZE", 1/1000, 100, 1/10000⟩
      (123456/100000000) rfl (by simp) (by norm_num) (by norm_num)).2.2⟩

/-- C7 counterexample: with the LOT_SIZE filter (min 0, max 100,
step 0.000000015) — a step finer than the 8-decimal quantization — the
adjustment is NOT idempotent at q = 0.000000015: the first pass yields
0.00000001 and the second pass yields 0. -/
theorem c7_counterexample :
    adjust_quantity_to_filters (some [⟨"LOT_SIZE", 0, 100, 15/1000000000⟩])
        (adjust_quantity_to_filters
          (some [⟨"LOT_SIZE", 0, 100, 15/1000000000⟩]) (15/1000000000))
      ≠ adjust_quantity_to_filters
          (some [⟨"LOT_SIZE", 0, 100, 15/1000000000⟩]) (15/1000000000) := by
  have h1 : adjust_quantity_to_filters
      (some [⟨"LOT_SIZE", 0, 100, 15/1000000000⟩]) (15/1000000000)
      = 1/100000000 := by
    norm_num [adjust_quantity_to_filters, quantize8, dfloordiv, dtrunc,
      List.find?]
  rw [h1]
  norm_num [adjust_quantity_to_filters, quantize8, dfloordiv, dtrunc,
    List.find?]

/-- C7 (amended): for every nonnegative quantity, the LOT_SIZE adjustment
never increases the quantity provided any LOT_SIZE step present is
nonzero; it is moreover idempotent provided the LOT_SIZE entry has a
positive step, min ≤ max, and min/step both representable in 8 decimal
places (the counterexample shows idempotence fails for a sub-8-decimal
step). -/
theorem c7_adjust_idempotent_amended
    (fo : Option (List SymbolFilter)) (q : ℚ) (hq : 0 ≤ q) :
    ((∀ fs, fo = some fs → ∀ f,
        fs.find? (fun g => g.filterType = "LOT_SIZE") = some f →
        f.stepSize ≠ 0) →
      adjust_quantity_to_filters fo q ≤ q) ∧
    ((∀ fs, fo = some fs → ∀ f,
        fs.find? (fun g => g.filterType = "LOT_SIZE") = some f →
        0 < f.stepSize ∧ f.minQty ≤ f.maxQty ∧ IsMul8 f.minQty
          ∧ IsMul8 f.stepSize) →
      adjust_quantity_to_filters fo (adjust_quantity_to_filters fo q)
        = adjust_quantity_to_filters fo q) := by
  constructor
  · intro hstep
    match fo with
    | none => exact le_refl q
    | some fs =>
      match hfind : fs.find? (fun g => g.filterType = "LOT_SIZE") with
      | none => simp [adjust_quantity_to_filters, hfind]
      | some f =>
        have hs : f.stepSize ≠ 0 := hstep fs rfl f hfind
        rw [adjust_eq_of_find q hfind]
        by_cases hqm : q < f.minQty
        · rw [if_pos hqm]
          exact hq
        · rw [if_neg hqm]
          have hmq : f.minQty ≤ q := not_lt.1 hqm
          have ha_le : dfloordiv (min q f.maxQty - f.minQty) f.stepSize
              * f.stepSize + f.minQty ≤ q := by
            rcases le_or_lt 0 (min q f.maxQty - f.minQty) with hd0 | hd0
            · have h1 := dfloordiv_mul_le hd0 hs
              have h2 : min q f.maxQty ≤ q := min_le_left q f.maxQty
              linarith
            · have h1 := dfloordiv_mul_nonpos hd0 hs
              linarith
          rcases le_or_lt 0 (dfloordiv (min q f.maxQty - f.minQty)
              f.stepSize * f.stepSize + f.minQty) with h0 | h0
          · exact (quantize8_le_self h0).trans ha_le
          · exact (quantize8_nonpos h0.le).trans hq
  · intro hfs
    match fo with
    | none => rfl
    | some fs =>
      match hfind : fs.find? (fun g => g.filterType = "LOT_SIZE") with
      | none => simp [adjust_quantity_to_filters, hfind]
      | some f =>
        obtain ⟨hs, hmM, h8m, h8s⟩ := hfs fs rfl f hfind
        rw [adjust_eq_of_find q hfind]
        by_cases hqm : q < f.minQty
        · rw [if_pos hqm]
          rw [adjust_eq_of_find 0 hfind, if_pos (lt_of_le_of_lt hq hqm)]
        · rw [if_neg hqm]
          have hmq : f.minQty ≤ q := not_lt.1 hqm
          have hmt : f.minQty ≤ min q f.maxQty := le_min hmq hmM
          have hd : 0 ≤ min q f.maxQty - f.minQty := sub_nonneg.2 hmt
          set k : ℤ := dtrunc ((min q f.maxQty - f.minQty) / f.stepSize)
            with hk
          have hdf : dfloordiv (min q f.maxQty - f.minQty) f.stepSize
              = (k : ℚ) := rfl
          have hk0 : (0 : ℚ) ≤ (k : ℚ) :=
            dtrunc_nonneg (div_nonneg hd hs.le)
          have ha_le : (k : ℚ) * f.stepSize + f.minQty ≤ min q f.maxQty := by
            have := dfloordiv_mul_le hd hs.ne'
            rw [hdf] at this
            linarith
          have ha_ge : f.minQty ≤ (k : ℚ) * f.stepSize + f.minQty := by
            nlinarith
          have h8a : IsMul8 ((k : ℚ) * f.stepSize + f.minQty) :=
            (h8s.int_mul k).add h8m
          have hqa : quantize8 ((k : ℚ) * f.stepSize + f.minQty)
              = (k : ℚ) * f.stepSize + f.minQty := quantize8_eq_self h8a
          rw [hdf, hqa]
          rw [adjust_eq_of_find _ hfind, if_neg (not_lt.2 ha_ge)]
          have hminA : min ((k : ℚ) * f.stepSize + f.minQty) f.maxQty
              = (k : ℚ) * f.stepSize + f.minQty :=
            min_eq_left (ha_le.trans (min_le_right q f.maxQty))
          rw [hminA, add_sub_cancel_right, dfloordiv,
            mul_div_cancel_right₀ _ hs.ne', dtrunc_intCast, hqa]

theorem c7_adjust_idempotent_amended_witness :
    adjust_quantity_to_filters (some [⟨"LOT_SIZE", 1/1000, 100, 1/10000⟩]) 5
      ≤ 5 ∧
    adjust_quantity_to_filters (some [⟨"LOT_SIZE", 1/1000, 100, 1/10000⟩])
        (adjust_quantity_to_filters
          (some [⟨"LOT_SIZE", 1/1000, 100, 1/10000⟩]) 5)
      = adjust_quantity_to_filters
          (some [⟨"LOT_SIZE", 1/1000, 100, 1/10000⟩]) 5 := by
  obtain ⟨h1, h2⟩ := c7_adjust_idempotent_amended
    (some [⟨"LOT_SIZE", 1/1000, 100, 1/10000⟩]) 5 (by norm_num)
  refine ⟨h1 ?_, h2 ?_⟩
  · intro fs hfs f hf
    cases Option.some.inj hfs
    obtain rfl : (⟨"LOT_SIZE", 1/1000, 100, 1/10000⟩ : SymbolFilter) = f := by
      simpa [List.find?] using hf
    norm_num
  · intro fs hfs f hf
    cases Option.some.inj hfs
    obtain rfl : (⟨"LOT_SIZE", 1/1000, 100, 1/10000⟩ : SymbolFilter) = f := by
      simpa [List.find?] using hf
    refine ⟨by norm_num, by norm_num, ⟨100000, by norm_num⟩,
      ⟨10000, by norm_num⟩⟩

/-- C10: when no filter list can be obtained (`None`) or the list carries
no LOT_SIZE entry, `adjust_quantity_to_filters` returns the requested
quantity completely unchanged. -/
theorem c10_passthrough (q : ℚ) :
    adjust_quantity_to_filters none q = q ∧
    ∀ fs : List SymbolFilter, (∀ g ∈ fs, g.filterType ≠ "LOT_SIZE") →
      adjust_quantity_to_filters (some fs) q = q := by
  refine ⟨rfl, fun fs hfs => ?_⟩
  have : fs.find? (fun g => g.filterType = "LOT_SIZE") = none := by
    rw [List.find?_eq_none]
    intro x hx
    simpa using hfs x hx
  simp [adjust_quantity_to_filters, this]

theorem c10_passthrough_witness :
    adjust_quantity_to_filters none (123/7) = 123/7 ∧
    adjust_quantity_to_filters
      (some [⟨"PRICE_FILTER", 1/1000, 100, 1/10000⟩]) (123/7) = 123/7 := by
  refine ⟨(c10_passthrough (123/7)).1, (c10_passthrough (123/7)).2 _ ?_⟩
  intro g hg
  rcases List.mem_singleton.1 hg with rfl
  simp

/-! ### Market-data model: tickers, symbol resolution, risk metrics
(`src/data_analyzer.py`, `src/risk_manager.py`) -/

/-- One entry of the ticker dictionary.  The Python ticker dicts carry
string-keyed fields; `none` models an absent `bidPrice`/`askPrice` key
(`_estimate_spread` falls back to the default spread in that case). -/
structure TickerEntry where
  bidPrice : Option ℚ
  askPrice : Option ℚ
deriving DecidableEq, Repr

/-- The `tickers` dict: symbol name → ticker entry. -/
abbrev Tickers := List (String × TickerEntry)

/-- `DataAnalyzer.get_symbol_and_side` (`src/data_analyzer.py:565-598`):
try the forward candidates `XY`, `X_Y` (side SELL), then the backward
candidates `YX`, `Y_X` (side BUY); `none` models the `(None, None)`
return. -/
def get_symbol_and_side (tickers : Tickers) (asset_from asset_to : String) :
    Option (String × String) :=
  let forward := [asset_from ++ asset_to, asset_from ++ "_" ++ asset_to]
  let backward := [asset_to ++ asset_from, asset_to ++ "_" ++ asset_from]
  match forward.find? (fun s => (tickers.lookup s).isSome) with
  | some s => some (s, "SELL")
  | none =>
    match backward.find? (fun s => (tickers.lookup s).isSome) with
    | some s => some (s, "BUY")
    | none => none

/-- `RiskManager._estimate_spread` (`src/risk_manager.py:291-316`).
The argument is an `Option` because callers feed it the (possibly `None`)
symbol resolved by `get_symbol_and_side`; `None` is never a ticker key,
so it takes the default-spread branch exactly like the Python
`None not in tickers` membership test.  The `InvalidOperation` handler of
the source cannot fire in this typed embedding (prices are already
numbers); it also returns the default spread. -/
def _estimate_spread (tickers : Tickers) (symbol : Option String) : ℚ :=
  match symbol with
  | none => 1/100
  | some s =>
    match tickers.lookup s with
    | none => 1/100
    | some td =>
      match td.bidPrice, td.askPrice with
      | some bid, some ask => if 0 < bid then (ask - bid) / bid else 1/100
      | _, _ => 1/100

/-- The consecutive pairs of a path (the hops iterated by
`for i in range(len(path) - 1)`). -/
def pathHops : List String → List (String × String)
  | a :: b :: rest => (a, b) :: pathHops (b :: rest)
  | _ => []

/-- The symbol a hop resolves to (first component of
`get_symbol_and_side`, which is `None` when the pair is unknown). -/
def hopSymbol (tickers : Tickers) (h : String × String) : Option String :=
  (get_symbol_and_side tickers h.1 h.2).map Prod.fst

/-- `RiskManager._calculate_path_risk_score` (`src/risk_manager.py:256-289`).
`get_symbol_and_side` is total here, so the `except (TypeError,
ValueError)` 0.05-penalty branch of the source is unreachable: an unknown
pair resolves to `None` and `_estimate_spread` yields the default 0.01. -/
def _calculate_path_risk_score (tickers : Tickers) (path : List String) : ℚ :=
  if path.length ≤ 2 then 3/10
  else
    let complexity_risk := ((path.length : ℚ) - 2) * (1/10)
    let volatility_risk :=
      ((pathHops path).map
        (fun h => _estimate_spread tickers (hopSymbol tickers h))).sum
    min 1 (complexity_risk + volatility_risk)

/-- `RiskManager._estimate_max_drawdown` (`src/risk_manager.py:368-384`);
the `tickers` argument is unused by the source body. -/
def _estimate_max_drawdown (path : List String) : ℚ :=
  min (1/10) (2/100 + ((path.length : ℚ) - 1) * (5/1000))

/-- `RiskManager._calculate_execution_probability`
(`src/risk_manager.py:386-421`). -/
def _calculate_execution_probability (tickers : Tickers)
    (path : List String) : ℚ :=
  let base_probability : ℚ := 95/100
  let complexity_penalty := ((path.length : ℚ) - 2) * (2/100)
  let spread_penalty :=
    ((pathHops path).map
      (fun h =>
        match get_symbol_and_side tickers h.1 h.2 with
        | some sside =>
          if 2/100 < _estimate_spread tickers (some sside.1) then 1/100 else 0
        | none => (0 : ℚ))).sum
  max (1/2) (min 1 (base_probability - complexity_penalty - spread_penalty))

/-- Modelled from the spec sentence for claim C5 (refinement comparison):
`spread_i = (ask−bid)/bid` for the hop's resolved symbol, defaulting to
0.01 when the symbol is missing from the tickers. -/
def spread_spec (tickers : Tickers) (sym : Option String) : ℚ :=
  match sym.bind (fun s => tickers.lookup s) with
  | some td => (td.askPrice.getD 0 - td.bidPrice.getD 0) / td.bidPrice.getD 0
  | none => 1/100

/-- Modelled from the spec sentence for claim C5 (refinement comparison):
`risk_score = min(1, 0.1·(len−2) + Σ spread_i)`. -/
def risk_score_spec (tickers : Tickers) (path : List String) : ℚ :=
  min 1 (((path.length : ℚ) - 2) * (1/10) +
    ((pathHops path).map
      (fun h => spread_spec tickers (hopSymbol tickers h))).sum)

theorem spread_spec_eq_estimate (tickers : Tickers)
    (hwf : ∀ s td, tickers.lookup s = some td →
      (∃ b, td.bidPrice = some b ∧ 0 < b) ∧ td.askPrice.isSome = true)
    (sym : Option String) :
    _estimate_spread tickers sym = spread_spec tickers sym := by
  match sym with
  | none => rfl
  | some s =>
    match hl : tickers.lookup s with
    | none => simp [_estimate_spread, spread_spec, hl]
    | some td =>
      obtain ⟨⟨b, hb, hb0⟩, ha⟩ := hwf s td hl
      obtain ⟨a, ha'⟩ := Option.isSome_iff_exists.1 ha
      simp [_estimate_spread, spread_spec, hl, hb, ha', hb0]

/-- C5 counterexample: for the two-asset path [A, B] with ticker AB at
bid 100 / ask 101 the code returns the flat simple-path score 0.3, while
the claimed formula `min(1, 0.1·(len−2) + Σ spread_i)` yields 0.01. -/
theorem c5_counterexample :
    _calculate_path_risk_score [("AB", ⟨some 100, some 101⟩)] ["A", "B"]
      ≠ risk_score_spec [("AB", ⟨some 100, some 101⟩)] ["A", "B"] := by
  have h1 : _calculate_path_risk_score
      [("AB", ⟨some 100, some 101⟩)] ["A", "B"] = 3/10 := rfl
  have hs : hopSymbol [("AB", (⟨some 100, some 101⟩ : TickerEntry))]
      ("A", "B") = some "AB" := rfl
  have hl : List.lookup "AB" [("AB", (⟨some 100, some 101⟩ : TickerEntry))]
      = some ⟨some 100, some 101⟩ := rfl
  have h2 : risk_score_spec [("AB", ⟨some 100, some 101⟩)] ["A", "B"]
      = 1/100 := by
    rw [risk_score_spec]
    simp only [pathHops, List.map_cons, List.map_nil, List.sum_cons,
      List.sum_nil, hs, spread_spec, Option.some_bind, hl]
    norm_num
  rw [h1, h2]
  norm_num

/-- C5 (amended): the formula
`risk_score = min(1, 0.1·(len−2) + Σ spread_i)` holds for every path of
length at least 3 (with per-hop spreads as the spec states them, under
well-formed tickers: bid present and positive, ask present); for paths of
length ≤ 2 the code instead returns the flat score 0.3. -/
theorem c5_risk_score_amended (tickers : Tickers) (path : List String)
    (hlen : 3 ≤ path.length)
    (hwf : ∀ s td, tickers.lookup s = some td →
      (∃ b, td.bidPrice = some b ∧ 0 < b) ∧ td.askPrice.isSome = true) :
    _calculate_path_risk_score tickers path = risk_score_spec tickers path
      ∧ ∀ tickers2 path2, List.length path2 ≤ 2 →
        _calculate_path_risk_score tickers2 path2 = 3/10 := by
  constructor
  · have hmap : (pathHops path).map
        (fun h => _estimate_spread tickers (hopSymbol tickers h))
        = (pathHops path).map
          (fun h => spread_spec tickers (hopSymbol tickers h)) :=
      List.map_congr_left
        (fun h _ => spread_spec_eq_estimate tickers hwf (hopSymbol tickers h))
    simp only [_calculate_path_risk_score, risk_score_spec, hmap]
    rw [if_neg (by omega : ¬ path.length ≤ 2)]
  · intro tickers2 path2 hp2
    simp only [_calculate_path_risk_score]
    rw [if_pos hp2]

theorem c5_risk_score_amended_witness :
    (_calculate_path_risk_score [("AB", ⟨some 100, some 101⟩)]
        ["A", "B", "C"]
      = risk_score_spec [("AB", ⟨some 100, some 101⟩)] ["A", "B", "C"]
      ∧ ∀ tickers2 path2, List.length path2 ≤ 2 →
        _calculate_path_risk_score tickers2 path2 = 3/10) := by
  refine c5_risk_score_amended _ _ (by norm_num) ?_
  intro s td h
  cases hbeq : (s == "AB") with
  | false => simp [List.lookup, hbeq] at h
  | true =>
    obtain rfl : td = ⟨some 100, some 101⟩ := by
      simpa [List.lookup, hbeq, eq_comm] using h
    exact ⟨⟨100, rfl, by norm_num⟩, rfl⟩

/-- C6 counterexample: with a crossed ticker (AB bid 100, ask 50) the
path [A, B, C] receives risk score
`min(1, 0.1 + (50−100)/100 + 0.01) = −0.39 < 0`, outside the claimed
interval [0, 1]. -/
theorem c6_counterexample :
    _calculate_path_risk_score [("AB", ⟨some 100, some 50⟩)]
      ["A", "B", "C"] < 0 := by
  have hs1 : hopSymbol [("AB", (⟨some 100, some 50⟩ : TickerEntry))]
      ("A", "B") = some "AB" := rfl
  have hs2 : hopSymbol [("AB", (⟨some 100, some 50⟩ : TickerEntry))]
      ("B", "C") = none := rfl
  have hl : List.lookup "AB" [("AB", (⟨some 100, some 50⟩ : TickerEntry))]
      = some ⟨some 100, some 50⟩ := rfl
  rw [_calculate_path_risk_score, if_neg (by norm_num)]
  simp only [pathHops, List.map_cons, List.map_nil, List.sum_cons,
    List.sum_nil, hs1, hs2, _estimate_spread, hl]
  norm_num

theorem estimate_spread_nonneg (tickers : Tickers)
    (hwf : ∀ s td, tickers.lookup s = some td → ∀ b a,
      td.bidPrice = some b → td.askPrice = some a → b ≤ a)
    (sym : Option String) : 0 ≤ _estimate_spread tickers sym := by
  match sym with
  | none => norm_num [_estimate_spread]
  | some s =>
    match hl : tickers.lookup s with
    | none => norm_num [_estimate_spread, hl]
    | some td =>
      match hb : td.bidPrice, ha : td.askPrice with
      | some b, some a =>
        simp only [_estimate_spread, hl, hb, ha]
        split
        · rename_i hb0
          exact div_nonneg (sub_nonneg.2 (hwf s td hl b a hb ha))
            (le_of_lt hb0)
        · norm_num
      | some b2, none => norm_num [_estimate_spread, hl, hb, ha]
      | none, some a2 => norm_num [_estimate_spread, hl, hb]
      | none, none => norm_num [_estimate_spread, hl, hb]

/-- C6 (amended): `max_drawdown ≤ 0.1` and
`execution_probability ∈ [0.5, 1]` hold for every path and every ticker
state, and `risk_score ≤ 1` always; but `risk_score ≥ 0` needs the
tickers to be uncrossed (bid ≤ ask whenever both are present) — the
counterexample shows a crossed ticker drives the score negative. -/
theorem c6_bounds_amended (tickers : Tickers) (path : List String) :
    _estimate_max_drawdown path ≤ 1/10 ∧
    1/2 ≤ _calculate_execution_probability tickers path ∧
    _calculate_execution_probability tickers path ≤ 1 ∧
    _calculate_path_risk_score tickers path ≤ 1 ∧
    ((∀ s td, tickers.lookup s = some td → ∀ b a,
        td.bidPrice = some b → td.askPrice = some a → b ≤ a) →
      0 ≤ _calculate_path_risk_score tickers path) := by
  refine ⟨min_le_left _ _, le_max_left _ _, ?_, ?_, ?_⟩
  · exact max_le (by norm_num) ((min_le_left _ _))
  · rw [_calculate_path_risk_score]
    split
    · norm_num
    · exact min_le_left _ _
  · intro hwf
    rw [_calculate_path_risk_score]
    split
    · norm_num
    · rename_i hlen
      refine le_min (by norm_num) (add_nonneg ?_ ?_)
      · have h3 : (3 : ℚ) ≤ (path.length : ℚ) := by
          exact_mod_cast by omega
        nlinarith
      · exact List.sum_nonneg (fun x hx => by
          obtain ⟨h, _, rfl⟩ := List.mem_map.1 hx
          exact estimate_spread_nonneg tickers hwf _)

theorem c6_bounds_amended_witness :
    _estimate_max_drawdown ["A", "B", "C"] ≤ 1/10 ∧
    1/2 ≤ _calculate_execution_probability [] ["A", "B", "C"] ∧
    _calculate_execution_probability [] ["A", "B", "C"] ≤ 1 ∧
    _calculate_path_risk_score [] ["A", "B", "C"] ≤ 1 ∧
    0 ≤ _calculate_path_risk_score [] ["A", "B", "C"] := by
  obtain ⟨h1, h2, h3, h4, h5⟩ := c6_bounds_amended [] ["A", "B", "C"]
  exact ⟨h1, h2, h3, h4, h5 (fun s td h => by simp [List.lookup] at h)⟩

/-! ### `DataAnalyzer.calculate_trade` (`src/data_analyzer.py:409-508`) -/

/-- Order-book snapshot: sorted bid and ask levels `(price, quantity)`. -/
structure OrderBook where
  bids : List (ℚ × ℚ)
  asks : List (ℚ × ℚ)
deriving DecidableEq, Repr

/-- Environment of a `calculate_trade` call: the ticker dict, the
order-book cache, the per-symbol commission
(`get_commission_for_symbol`, taker since `use_maker=False`), and the
per-symbol `min_notional` from `get_symbol_limits` (`none` models an
empty/unavailable limits dict, which skips the notional check). -/
structure TradeEnv where
  tickers : Tickers
  order_books : List (String × OrderBook)
  commission : String → ℚ
  limits : List (String × ℚ)

/-- The candidate scan at the top of `calculate_trade`: forward
candidates `XY`, `X_Y` first (sell base for quote), then reverse
candidates `YX`, `Y_X` (buy base with quote).  `true` = forward. -/
def resolveTradeSymbol (tickers : Tickers) (asset_from asset_to : String) :
    Option (String × Bool) :=
  let cf := [asset_from ++ asset_to, asset_from ++ "_" ++ asset_to]
  let cr := [asset_to ++ asset_from, asset_to ++ "_" ++ asset_from]
  match cf.find? (fun s => (tickers.lookup s).isSome) with
  | some s => some (s, true)
  | none =>
    match cr.find? (fun s => (tickers.lookup s).isSome) with
    | some s => some (s, false)
    | none => none

/-- The ticker-fallback pricing branch of `calculate_trade`
(`none` models the early `return 0.0` paths). -/
def ticker_result (tickers : Tickers) (used_symbol : String) (fwd : Bool)
    (amount_from commission : ℚ) : Option ℚ :=
  match tickers.lookup used_symbol with
  | none => none
  | some t =>
    if fwd then
      let bid := t.bidPrice.getD 0
      if bid ≤ 0 then none else some (amount_from * bid * (1 - commission))
    else
      let ask := t.askPrice.getD 0
      if ask ≤ 0 then none else some (amount_from / ask * (1 - commission))

/-- The pricing block of `calculate_trade`: order book with both sides
non-empty takes priority, else the ticker fallback; `none` models the
early `return 0.0` paths (non-positive best price, absent ticker). -/
def priced_result (env : TradeEnv) (s : String) (fwd : Bool) (q : ℚ) :
    Option ℚ :=
  let commission := env.commission s
  match env.order_books.lookup s with
  | some ob =>
    if ob.bids ≠ [] ∧ ob.asks ≠ [] then
      if fwd then
        let bid := ((ob.bids.head?).map Prod.fst).getD 0
        if bid ≤ 0 then none else some (q * bid * (1 - commission))
      else
        let ask := ((ob.asks.head?).map Prod.fst).getD 0
        if ask ≤ 0 then none else some (q / ask * (1 - commission))
    else ticker_result env.tickers s fwd q commission
  | none => ticker_result env.tickers s fwd q commission

/-- The trailing min-notional gate of `calculate_trade`: when limits are
known for the symbol and the approximate notional (amount × ticker bid
forward, the raw amount in reverse) is below `min_notional`, the trade
returns 0. -/
def apply_notional (env : TradeEnv) (s : String) (fwd : Bool)
    (q result : ℚ) : ℚ :=
  match env.limits.lookup s with
  | none => result
  | some mn =>
    let notional :=
      if fwd then
        q * (((env.tickers.lookup s).bind TickerEntry.bidPrice).getD 0)
      else q
    if notional < mn then 0 else result

/-- `DataAnalyzer.calculate_trade` (`src/data_analyzer.py:409-508`):
resolve the symbol, price the hop, apply the notional gate. -/
def calculate_trade (env : TradeEnv) (asset_from asset_to : String)
    (amount_from : ℚ) : ℚ :=
  match resolveTradeSymbol env.tickers asset_from asset_to with
  | none => 0
  | some sf =>
    match priced_result env sf.1 sf.2 amount_from with
    | none => 0
    | some result => apply_notional env sf.1 sf.2 amount_from result

/-- The notional gate of `calculate_trade` passes: no limits are known
for the symbol, or the approximate notional meets `min_notional`. -/
def notional_ok (env : TradeEnv) (s : String) (fwd : Bool) (q : ℚ) : Prop :=
  ∀ mn, env.limits.lookup s = some mn →
    mn ≤ (if fwd then
        q * (((env.tickers.lookup s).bind TickerEntry.bidPrice).getD 0)
      else q)

theorem apply_notional_eq (env : TradeEnv) (s : String) (fwd : Bool)
    (q result : ℚ) (hok : notional_ok env s fwd q) :
    apply_notional env s fwd q result = result := by
  rw [apply_notional]
  match hl : env.limits.lookup s with
  | none => rfl
  | some mn =>
    simp only []
    rw [if_neg (not_lt.2 (hok mn hl))]

/-- C3 counterexample: with ticker AB (bid 2000 / ask 2001), a live
order book for AB with best bid 2000, zero commission, and known limits
with min_notional 10, a forward hop A→B of 0.001 returns 0 — the
notional gate fires — while the claimed output
`q × best_bid × (1 − fee) = 2` is nonzero. -/
theorem c3_counterexample :
    calculate_trade
        ⟨[("AB", ⟨some 2000, some 2001⟩)],
         [("AB", ⟨[(2000, 1)], [(2001, 1)]⟩)],
         fun _ => 0, [("AB", 10)]⟩ "A" "B" (1/1000) = 0
    ∧ (1/1000 : ℚ) * 2000 * (1 - 0) ≠ 0 := by
  constructor
  · have h1 : resolveTradeSymbol
        [("AB", (⟨some 2000, some 2001⟩ : TickerEntry))] "A" "B"
        = some ("AB", true) := rfl
    have h2 : List.lookup "AB"
        [("AB", (⟨[((2000 : ℚ), (1 : ℚ))], [((2001 : ℚ), (1 : ℚ))]⟩
          : OrderBook))]
        = some ⟨[(2000, 1)], [(2001, 1)]⟩ := rfl
    have h3 : List.lookup "AB" [("AB", (10 : ℚ))] = some 10 := rfl
    have h4 : List.lookup "AB"
        [("AB", (⟨some 2000, some 2001⟩ : TickerEntry))]
        = some ⟨some 2000, some 2001⟩ := rfl
    simp only [calculate_trade, priced_result, apply_notional, h1, h2, h3, h4]
    norm_num
  · norm_num

/-- C3 (amended): `calculate_trade` resolves `XY` (forward) before `YX`
(reverse) and returns 0 when neither exists; when the resolved symbol
has an order book with non-empty bids and asks, the output is
`q·best_bid·(1−fee)` forward and `(q/best_ask)·(1−fee)` reverse, and
otherwise the same formulas apply to the ticker's best bid/ask —
PROVIDED the best price is positive and the trailing min-notional gate
passes (no symbol limits known, or approximate notional ≥ min_notional);
when the gate fires the trade returns 0 instead (the counterexample). -/
theorem c3_calculate_trade_amended (env : TradeEnv)
    (asset_from asset_to : String) (q : ℚ) :
    (resolveTradeSymbol env.tickers asset_from asset_to = none →
      calculate_trade env asset_from asset_to q = 0) ∧
    ((env.tickers.lookup (asset_from ++ asset_to)).isSome = true →
      resolveTradeSymbol env.tickers asset_from asset_to
        = some (asset_from ++ asset_to, true)) ∧
    (∀ s ob b bq bs,
      resolveTradeSymbol env.tickers asset_from asset_to = some (s, true) →
      env.order_books.lookup s = some ob →
      ob.bids = (b, bq) :: bs → ob.asks ≠ [] → 0 < b →
      notional_ok env s true q →
      calculate_trade env asset_from asset_to q
        = q * b * (1 - env.commission s)) ∧
    (∀ s ob a aq arest,
      resolveTradeSymbol env.tickers asset_from asset_to = some (s, false) →
      env.order_books.lookup s = some ob →
      ob.asks = (a, aq) :: arest → ob.bids ≠ [] → 0 < a →
      notional_ok env s false q →
      calculate_trade env asset_from asset_to q
        = q / a * (1 - env.commission s)) ∧
    (∀ s t b,
      resolveTradeSymbol env.tickers asset_from asset_to = some (s, true) →
      (env.order_books.lookup s = none ∨
        ∃ ob, env.order_books.lookup s = some ob ∧
          (ob.bids = [] ∨ ob.asks = [])) →
      env.tickers.lookup s = some t → t.bidPrice = some b → 0 < b →
      notional_ok env s true q →
      calculate_trade env asset_from asset_to q
        = q * b * (1 - env.commission s)) ∧
    (∀ s t a,
      resolveTradeSymbol env.tickers asset_from asset_to = some (s, false) →
      (env.order_books.lookup s = none ∨
        ∃ ob, env.order_books.lookup s = some ob ∧
          (ob.bids = [] ∨ ob.asks = [])) →
      env.tickers.lookup s = some t → t.askPrice = some a → 0 < a →
      notional_ok env s false q →
      calculate_trade env asset_from asset_to q
        = q / a * (1 - env.commission s)) := by
  refine ⟨?_, ?_, ?_, ?_, ?_, ?_⟩
  · intro h
    simp only [calculate_trade, h]
  · intro h
    have hfind : List.find? (fun s => (List.lookup s env.tickers).isSome)
        [asset_from ++ asset_to, asset_from ++ "_" ++ asset_to]
        = some (asset_from ++ asset_to) :=
      List.find?_cons_of_pos _ h
    simp only [resolveTradeSymbol, hfind]
  · intro s ob b bq bs hres hob hbids hasks hb hok
    have hne : ob.bids ≠ [] := by simp [hbids]
    have hhead : ((ob.bids.head?).map Prod.fst).getD 0 = b := by
      rw [hbids]
      rfl
    simp only [calculate_trade, hres, priced_result, hob]
    rw [if_pos ⟨hne, hasks⟩]
    simp only [if_true, hhead]
    rw [if_neg (not_le.2 hb)]
    exact apply_notional_eq env s true q _ hok
  · intro s ob a aq arest hres hob hasks hbids ha hok
    have hne : ob.asks ≠ [] := by simp [hasks]
    have hhead : ((ob.asks.head?).map Prod.fst).getD 0 = a := by
      rw [hasks]
      rfl
    simp only [calculate_trade, hres, priced_result, hob]
    rw [if_pos ⟨hbids, hne⟩]
    simp only [Bool.false_eq_true, if_false, hhead]
    rw [if_neg (not_le.2 ha)]
    exact apply_notional_eq env s false q _ hok
  · intro s t b hres hmiss ht hbid hb hok
    have htick : ticker_result env.tickers s true q (env.commission s)
        = some (q * b * (1 - env.commission s)) := by
      simp only [ticker_result, ht, if_true, hbid, Option.getD_some]
      rw [if_neg (not_le.2 hb)]
    rcases hmiss with hnone | ⟨ob, hob, hempty⟩
    · simp only [calculate_trade, hres, priced_result, hnone, htick]
      exact apply_notional_eq env s true q _ hok
    · have hcond : ¬ (ob.bids ≠ [] ∧ ob.asks ≠ []) := by
        rcases hempty with h | h <;> simp [h]
      simp only [calculate_trade, hres, priced_result, hob, if_neg hcond,
        htick]
      exact apply_notional_eq env s true q _ hok
  · intro s t a hres hmiss ht hask ha hok
    have htick : ticker_result env.tickers s false q (env.commission s)
        = some (q / a * (1 - env.commission s)) := by
      simp only [ticker_result, ht, Bool.false_eq_true, if_false, hask,
        Option.getD_some]
      rw [if_neg (not_le.2 ha)]
    rcases hmiss with hnone | ⟨ob, hob, hempty⟩
    · simp only [calculate_trade, hres, priced_result, hnone, htick]
      exact apply_notional_eq env s false q _ hok
    · have hcond : ¬ (ob.bids ≠ [] ∧ ob.asks ≠ []) := by
        rcases hempty with h | h <;> simp [h]
      simp only [calculate_trade, hres, priced_result, hob, if_neg hcond,
        htick]
      exact apply_notional_eq env s false q _ hok

theorem c3_calculate_trade_amended_witness :
    calculate_trade
        ⟨[("AB", ⟨some 2000, some 2001⟩)],
         [("AB", ⟨[(2000, 1)], [(2001, 1)]⟩)],
         fun _ => 1/1000, []⟩ "A" "B" 2
      = 2 * 2000 * (1 - (1/1000 : ℚ)) := by
  have h := (c3_calculate_trade_amended
    ⟨[("AB", ⟨some 2000, some 2001⟩)],
     [("AB", ⟨[(2000, 1)], [(2001, 1)]⟩)],
     fun _ => 1/1000, []⟩ "A" "B" 2).2.2.1
  exact h "AB" ⟨[(2000, 1)], [(2001, 1)]⟩ 2000 1 [] rfl rfl rfl (by simp)
    (by norm_num) (fun mn hmn => by simp [List.lookup] at hmn)

/-! ### Portfolio optimization (`src/risk_manager.py:438-646,1213-1336`) -/

/-- The `path_info` dict of a path candidate: its asset list and the
`returns_to_start` flag (the `.get("returns_to_start", …)` defaults
never fire since the flag is always present here). -/
structure PathInfo where
  path : List String
  returns_to_start : Bool
deriving DecidableEq, Repr

/-- The `PathAnalysis` dataclass (`src/risk_manager.py:15-26`). -/
structure PathAnalysis where
  path_info : PathInfo
  expected_profit : ℚ
  risk_score : ℚ
  sharpe_ratio : ℚ
  max_drawdown : ℚ
  execution_probability : ℚ
  correlation_score : ℚ
deriving DecidableEq, Repr

/-- An allocation dict produced by `_optimize_portfolio_allocation`
(keys `path_info`, `investment_size`, `expected_profit`,
`risk_score`). -/
structure PathAllocation where
  path_info : PathInfo
  investment_size : ℚ
  expected_profit : ℚ
  risk_score : ℚ
deriving DecidableEq, Repr

/-- The `PortfolioAllocation` dataclass (`src/risk_manager.py:28-36`). -/
structure PortfolioAllocation where
  path_allocations : List PathAllocation
  total_expected_profit : ℚ
  portfolio_risk_score : ℚ
  diversification_score : ℚ
  execution_strategy : String
deriving DecidableEq, Repr

/-- The scan of Python `max(..., key=...)`: keep the incumbent unless a
strictly larger Sharpe ratio appears (so the FIRST maximum wins ties). -/
def max_by_sharpe_go (best : PathAnalysis) :
    List PathAnalysis → PathAnalysis
  | [] => best
  | pa :: rest =>
    max_by_sharpe_go
      (if best.sharpe_ratio < pa.sharpe_ratio then pa else best) rest

/-- Python `max(viable_paths, key=lambda x: x.sharpe_ratio)`; `none` for
the empty list (where Python's `max` would raise, guarded by the
`if not viable_paths` check of the source). -/
def max_by_sharpe : List PathAnalysis → Option PathAnalysis
  | [] => none
  | pa :: rest => some (max_by_sharpe_go pa rest)

/-- `sorted(path_analyses, key=lambda x: x.sharpe_ratio, reverse=True)`:
stable descending sort. -/
def sortBySharpeDesc (l : List PathAnalysis) : List PathAnalysis :=
  l.mergeSort (fun a b => b.sharpe_ratio ≤ a.sharpe_ratio)

/-- The greedy loop of `_select_diversified_paths`
(`src/risk_manager.py:518-546`).  Note the source's generator
`max((pa.correlation_score for pa in selected_paths), default=0)`
shadows `pa` and takes the max correlation over already-selected
paths. -/
def select_diversified_go :
    List PathAnalysis → List PathAnalysis → List PathAnalysis
  | [], sel => sel
  | pa :: rest, sel =>
    let max_corr : ℚ :=
      match sel.map PathAnalysis.correlation_score with
      | [] => 0
      | c :: cs => cs.foldl max c
    if max_corr ≤ 7/10 then
      let sel2 := sel ++ [pa]
      if 3 ≤ sel2.length then sel2 else select_diversified_go rest sel2
    else select_diversified_go rest sel

/-- `RiskManager._select_diversified_paths` (threshold
`max_correlation_threshold = 0.7`, cap 3). -/
def _select_diversified_paths (l : List PathAnalysis) : List PathAnalysis :=
  select_diversified_go (sortBySharpeDesc l) []

/-- `RiskManager._calculate_diversified_allocation`
(`src/risk_manager.py:547-578`): capital split proportional to Sharpe
ratio. -/
def _calculate_diversified_allocation (pas : List PathAnalysis)
    (total_capital : ℚ) : List PathAllocation :=
  let total_sharpe := (pas.map PathAnalysis.sharpe_ratio).sum
  pas.map (fun pa =>
    let ratio := pa.sharpe_ratio / total_sharpe
    ⟨pa.path_info, total_capital * ratio, pa.expected_profit * ratio,
      pa.risk_score⟩)

/-- `RiskManager._calculate_portfolio_risk` (`src/risk_manager.py:580-596`). -/
def _calculate_portfolio_risk (pas : List PathAnalysis) : ℚ :=
  match pas with
  | [] => 0
  | _ => (pas.map PathAnalysis.risk_score).sum / pas.length

/-- `RiskManager._calculate_diversification_score`
(`src/risk_manager.py:598-619`). -/
def _calculate_diversification_score (pas : List PathAnalysis) : ℚ :=
  if pas.length ≤ 1 then 0
  else
    let correlation_penalty :=
      (pas.map PathAnalysis.correlation_score).sum / pas.length
    let diversification_bonus := (pas.length : ℚ) * (2/10)
    min 1 (diversification_bonus - correlation_penalty)

/-- `RiskManager._optimize_portfolio_allocation`
(`src/risk_manager.py:441-516`): filters to viable paths
(`sharpe_ratio ≥ min_sharpe_ratio = 0.5` and
`execution_probability ≥ 0.7`), then chooses between the best single
path and a diversified split. -/
def _optimize_portfolio_allocation (pas : List PathAnalysis)
    (total_capital : ℚ) : PortfolioAllocation :=
  match pas with
  | [] => ⟨[], 0, 0, 0, "none"⟩
  | _ =>
    let viable := pas.filter
      (fun pa => decide (1/2 ≤ pa.sharpe_ratio)
        && decide (7/10 ≤ pa.execution_probability))
    match max_by_sharpe viable with
    | none => ⟨[], 0, 0, 0, "none"⟩
    | some best =>
      let single : List PathAllocation :=
        [⟨best.path_info, total_capital, best.expected_profit,
          best.risk_score⟩]
      let diversified := _select_diversified_paths viable
      let single_portfolio : PortfolioAllocation :=
        ⟨single, best.expected_profit, best.risk_score, 0, "single"⟩
      if 1 < diversified.length then
        let div_profit := (diversified.map PathAnalysis.expected_profit).sum
        if best.expected_profit * (11/10) < div_profit then
          ⟨_calculate_diversified_allocation diversified total_capital,
            div_profit, _calculate_portfolio_risk diversified,
            _calculate_diversification_score diversified, "diversified"⟩
        else single_portfolio
      else single_portfolio

/-- An allocation dict produced by `_optimize_portfolio_allocation_hydra`
(keys `path`, `allocation_percentage`, `investment_amount`,
`expected_profit`, `risk_score`, `strategy_type`, and — only in the
multi-head branch — `returns_to_start`). -/
structure HydraAllocation where
  path : List String
  allocation_percentage : ℚ
  investment_amount : ℚ
  expected_profit : ℚ
  risk_score : ℚ
  strategy_type : String
  returns_to_start : Option Bool
deriving DecidableEq, Repr

structure HydraPortfolio where
  path_allocations : List HydraAllocation
  total_expected_profit : ℚ
  portfolio_risk_score : ℚ
  diversification_score : ℚ
  execution_strategy : String
deriving DecidableEq, Repr

/-- Lexicographic `≤` on the Python sort key
`(not returns_to_start, expected_profit, -risk_score)`. -/
def hydraKeyLe (x y : Bool × ℚ × ℚ) : Bool :=
  (!x.1 && y.1)
    || (x.1 == y.1
      && (decide (x.2.1 < y.2.1)
        || (x.2.1 == y.2.1 && decide (x.2.2 ≤ y.2.2))))

def hydraKey (pa : PathAnalysis) : Bool × ℚ × ℚ :=
  (!pa.path_info.returns_to_start, pa.expected_profit, -pa.risk_score)

/-- `RiskManager._optimize_portfolio_allocation_hydra`
(`src/risk_manager.py:1213-1336`): single path gets 100 % of the
capital; otherwise the top 3 paths of the stable descending sort by
`(not returns_to_start, expected_profit, −risk_score)` each get a
Sharpe-based percentage (minimum 0.2, boosted ×1.5 for forward paths) —
NO sharpe/execution-probability filter is applied. -/
def _optimize_portfolio_allocation_hydra
    (return_paths forward_paths : List PathAnalysis)
    (total_capital : ℚ) : HydraPortfolio :=
  match return_paths ++ forward_paths with
  | [] => ⟨[], 0, 0, 0, "no_paths"⟩
  | [path] =>
    ⟨[⟨path.path_info.path, 1, total_capital, path.expected_profit,
        path.risk_score, "single_path", none⟩],
      path.expected_profit, path.risk_score, 0, "single_path"⟩
  | all_paths =>
    let sorted_paths :=
      all_paths.mergeSort (fun a b => hydraKeyLe (hydraKey b) (hydraKey a))
    let selected_paths := sorted_paths.take 3
    let allocations := selected_paths.map (fun pa =>
      let base_pct : ℚ :=
        if 1/2 < pa.sharpe_ratio then min (3/5) (pa.sharpe_ratio / 2)
        else 1/5
      let pct :=
        if pa.path_info.returns_to_start then base_pct else base_pct * (3/2)
      (⟨pa.path_info.path, pct, total_capital * pct,
        pa.expected_profit * pct, pa.risk_score, "hydra_multi_head",
        some pa.path_info.returns_to_start⟩ : HydraAllocation))
    let total_expected_profit :=
      (allocations.map HydraAllocation.expected_profit).sum
    let total_risk :=
      (selected_paths.map PathAnalysis.risk_score).foldl max 0
    let strategy_base := "hydra_" ++ toString selected_paths.length
      ++ "_heads"
    let strategy_name :=
      if selected_paths.any (fun p => !p.path_info.returns_to_start) then
        strategy_base ++ "_pathfinding"
      else strategy_base
    ⟨allocations, total_expected_profit, total_risk,
      _calculate_diversification_score selected_paths, strategy_name⟩

/-- C4 counterexample: `generate_trade_instructions` allocates through
`_optimize_portfolio_allocation_hydra`, which applies NO viability
filter: a lone path with sharpe_ratio 0 (< 0.5) and
execution_probability 0.5 (< 0.7) still receives 100 % of the capital
(investment_amount 100 > 0). -/
theorem c4_counterexample :
    (_optimize_portfolio_allocation_hydra
        [⟨⟨["USDT", "BTC", "USDT"], true⟩, 1, 1/2, 0, 1/20, 1/2, 3/10⟩]
        [] 100).path_allocations
      = [⟨["USDT", "BTC", "USDT"], 1, 100, 1, 1/2, "single_path", none⟩]
    ∧ (0 : ℚ) < 1/2 ∧ (1/2 : ℚ) < 7/10 ∧ (0 : ℚ) < 100 :=
  ⟨rfl, by norm_num, by norm_num, by norm_num⟩

theorem max_by_sharpe_go_mem (l : List PathAnalysis) :
    ∀ best, max_by_sharpe_go best l ∈ best :: l := by
  induction l with
  | nil =>
    intro best
    simp [max_by_sharpe_go]
  | cons pa rest ih =>
    intro best
    rw [max_by_sharpe_go]
    rcases List.mem_cons.1
        (ih (if best.sharpe_ratio < pa.sharpe_ratio then pa else best)) with
      h | h
    · rw [h]
      split <;> simp
    · exact List.mem_cons_of_mem _ (List.mem_cons_of_mem _ h)

theorem max_by_sharpe_mem {l : List PathAnalysis} {pa : PathAnalysis}
    (h : max_by_sharpe l = some pa) : pa ∈ l := by
  match l with
  | [] => exact Option.noConfusion h
  | x :: xs =>
    rw [max_by_sharpe] at h
    exact (Option.some.inj h) ▸ max_by_sharpe_go_mem xs x

theorem select_diversified_go_mem (l : List PathAnalysis) :
    ∀ sel x, x ∈ select_diversified_go l sel → x ∈ sel ∨ x ∈ l := by
  induction l with
  | nil =>
    intro sel x h
    exact Or.inl (by simpa [select_diversified_go] using h)
  | cons pa rest ih =>
    intro sel x h
    simp only [select_diversified_go] at h
    split at h
    · split at h
      · rcases List.mem_append.1 h with h1 | h1
        · exact Or.inl h1
        · exact Or.inr (List.mem_cons.2 (Or.inl (List.mem_singleton.1 h1)))
      · rcases ih _ x h with h1 | h1
        · rcases List.mem_append.1 h1 with h2 | h2
          · exact Or.inl h2
          · exact Or.inr
              (List.mem_cons.2 (Or.inl (List.mem_singleton.1 h2)))
        · exact Or.inr (List.mem_cons_of_mem _ h1)
    · rcases ih _ x h with h1 | h1
      · exact Or.inl h1
      · exact Or.inr (List.mem_cons_of_mem _ h1)

theorem select_diversified_mem {l : List PathAnalysis} {x : PathAnalysis}
    (h : x ∈ _select_diversified_paths l) : x ∈ l := by
  rcases select_diversified_go_mem (sortBySharpeDesc l) [] x h with h1 | h1
  · exact absurd h1 (List.not_mem_nil x)
  · exact (List.mem_mergeSort).1 h1

/-- The viability predicate of `_optimize_portfolio_allocation`. -/
theorem mem_viable_filter {pas : List PathAnalysis} {pa : PathAnalysis}
    (h : pa ∈ pas.filter
      (fun pa => decide (1/2 ≤ pa.sharpe_ratio)
        && decide (7/10 ≤ pa.execution_probability))) :
    pa ∈ pas ∧ 1/2 ≤ pa.sharpe_ratio ∧ 7/10 ≤ pa.execution_probability := by
  obtain ⟨hmem, hpred⟩ := List.mem_filter.1 h
  rw [Bool.and_eq_true, decide_eq_true_eq, decide_eq_true_eq] at hpred
  exact ⟨hmem, hpred⟩

/-- C4 (amended): the viability filter
`sharpe_ratio ≥ 0.5 ∧ execution_probability ≥ 0.7` governs
`_optimize_portfolio_allocation`: every allocation it emits descends
from a path meeting both bounds.  `generate_trade_instructions`, however,
routes through `_optimize_portfolio_allocation_hydra`, which applies no
such filter (see the counterexample). -/
theorem c4_allocation_filter_amended (pas : List PathAnalysis)
    (total_capital : ℚ) :
    ∀ alloc ∈ (_optimize_portfolio_allocation pas
        total_capital).path_allocations,
      ∃ pa, pa ∈ pas ∧ 1/2 ≤ pa.sharpe_ratio
        ∧ 7/10 ≤ pa.execution_probability
        ∧ alloc.path_info = pa.path_info
        ∧ alloc.risk_score = pa.risk_score := by
  intro alloc halloc
  match pas with
  | [] => simp [_optimize_portfolio_allocation] at halloc
  | p :: ps =>
    simp only [_optimize_portfolio_allocation] at halloc
    split at halloc
    · simp at halloc
    · rename_i best hbest
      split at halloc
      · split at halloc
        · obtain ⟨pa, hpa, rfl⟩ := List.mem_map.1 halloc
          obtain ⟨hmem, hs, hp⟩ :=
            mem_viable_filter (select_diversified_mem hpa)
          exact ⟨pa, hmem, hs, hp, rfl, rfl⟩
        · obtain rfl := List.mem_singleton.1 halloc
          obtain ⟨hmem, hs, hp⟩ := mem_viable_filter (max_by_sharpe_mem hbest)
          exact ⟨best, hmem, hs, hp, rfl, rfl⟩
      · obtain rfl := List.mem_singleton.1 halloc
        obtain ⟨hmem, hs, hp⟩ := mem_viable_filter (max_by_sharpe_mem hbest)
        exact ⟨best, hmem, hs, hp, rfl, rfl⟩

theorem c4_allocation_filter_amended_witness :
    ∃ pa, pa ∈ [(⟨⟨["A", "B", "A"], true⟩, 2, 1/4, 1, 1/20, 1, 3/10⟩
        : PathAnalysis)]
      ∧ 1/2 ≤ pa.sharpe_ratio ∧ 7/10 ≤ pa.execution_probability
      ∧ (⟨⟨["A", "B", "A"], true⟩, 100, 2, 1/4⟩
          : PathAllocation).path_info = pa.path_info
      ∧ (⟨⟨["A", "B", "A"], true⟩, 100, 2, 1/4⟩
          : PathAllocation).risk_score = pa.risk_score := by
  refine c4_allocation_filter_amended
    [⟨⟨["A", "B", "A"], true⟩, 2, 1/4, 1, 1/20, 1, 3/10⟩] 100
    ⟨⟨["A", "B", "A"], true⟩, 100, 2, 1/4⟩ ?_
  have hfilter : List.filter
      (fun pa => decide ((1:ℚ)/2 ≤ pa.sharpe_ratio)
        && decide ((7:ℚ)/10 ≤ pa.execution_probability))
      [(⟨⟨["A", "B", "A"], true⟩, 2, 1/4, 1, 1/20, 1, 3/10⟩ : PathAnalysis)]
      = [⟨⟨["A", "B", "A"], true⟩, 2, 1/4, 1, 1/20, 1, 3/10⟩] := by
    norm_num [List.filter]
  norm_num [_optimize_portfolio_allocation, hfilter, max_by_sharpe,
    max_by_sharpe_go, _select_diversified_paths, sortBySharpeDesc,
    select_diversified_go, List.mergeSort]

/-! ### `OrderExecutor.execute_single_path`
(`src/src/hydra/order_executor.py:216-400`) -/

/-- One entry of a Binance order's `fills` array (the fields read by the
executor). -/
structure Fill where
  qty : ℚ
  quoteQty : ℚ
  commission : ℚ
  commissionAsset : String
deriving DecidableEq, Repr

/-- The fill-summation loop of `execute_single_path`: accumulates the
received total and the commission total, and overwrites
`commission_asset` with each fill's `commissionAsset` — so the LAST
fill's asset is the one compared against the destination asset. -/
def fills_fold (get : Fill → ℚ) (fills : List Fill) : ℚ × ℚ × String :=
  fills.foldl
    (fun acc f => (acc.1 + get f, acc.2.1 + f.commission, f.commissionAsset))
    (0, 0, "")

/-- The amount carried to the next hop, from the fetched order's fills
(`src/src/hydra/order_executor.py:330-360`): BUY sums `qty`, SELL sums
`quoteQty`; the summed commission is subtracted exactly when the (last)
commission asset equals the hop's destination asset. -/
def update_amount_from_fills (side asset_to : String)
    (fills : List Fill) : ℚ :=
  if side = "BUY" then
    let acc := fills_fold Fill.qty fills
    if acc.2.2 = asset_to then acc.1 - acc.2.1 else acc.1
  else
    let acc := fills_fold Fill.quoteQty fills
    if acc.2.2 = asset_to then acc.1 - acc.2.1 else acc.1

/-- Environment of a path execution: the tickers used for symbol
resolution, the per-symbol filter lists, and an oracle giving — per hop
index — the fetched details of the executed order (`none` when the
trade or the details lookup failed; the code additionally aborts on an
empty fills list, checked separately below). -/
structure ExecEnv where
  tickers : Tickers
  filters : String → Option (List SymbolFilter)
  orders : ℕ → Option (List Fill)

/-- One iteration of the hop loop of `execute_single_path`: resolve the
symbol and side, adjust the quantity to the filters (abort when ≤ 0),
execute and fetch the order's fills (abort on failure or empty fills),
compute the new amount from the fills (abort when ≤ 0). -/
def hop_step (env : ExecEnv) (i : ℕ) (asset_from asset_to : String)
    (amount : ℚ) : Option ℚ :=
  match get_symbol_and_side env.tickers asset_from asset_to with
  | none => none
  | some ss =>
    let adjusted := adjust_quantity_to_filters (env.filters ss.1) amount
    if adjusted ≤ 0 then none
    else
      match env.orders i with
      | none => none
      | some fills =>
        if fills = [] then none
        else
          let new_amount := update_amount_from_fills ss.2 asset_to fills
          if new_amount ≤ 0 then none else some new_amount

/-- The successive post-hop amounts of `execute_single_path`: each
successful hop's result is fed to the next hop; the trace stops at the
first aborting hop. -/
def exec_amounts (env : ExecEnv) :
    List (String × String) → ℕ → ℚ → List ℚ
  | [], _, _ => []
  | h :: rest, i, a =>
    match hop_step env i h.1 h.2 a with
    | none => []
    | some a2 => a2 :: exec_amounts env rest (i + 1) a2

theorem fills_fold_go (get : Fill → ℚ) (fills : List Fill) :
    ∀ (t c0 : ℚ) (ca : String),
      fills.foldl
        (fun acc f =>
          (acc.1 + get f, acc.2.1 + f.commission, f.commissionAsset))
        (t, c0, ca)
      = (t + (fills.map get).sum,
         c0 + (fills.map Fill.commission).sum,
         (fills.map Fill.commissionAsset).getLastD ca) := by
  induction fills with
  | nil => simp
  | cons f fs ih =>
    intro t c0 ca
    simp only [List.foldl_cons, ih, List.map_cons, List.sum_cons,
      List.getLastD_cons, add_assoc]

theorem getLastD_of_all_eq {l : List String} {c d : String}
    (hne : l ≠ []) (hall : ∀ x ∈ l, x = c) : l.getLastD d = c := by
  induction l generalizing d with
  | nil => exact absurd rfl hne
  | cons x xs ih =>
    rw [List.getLastD_cons]
    match xs with
    | [] => exact hall x (List.mem_cons_self x [])
    | y :: ys =>
      exact ih (by simp) (fun z hz => hall z (List.mem_cons_of_mem x hz))

/-- C1: for every hop of `execute_single_path` that completes
successfully (with all fills sharing one commission asset `c`), the
amount carried into the next hop equals `Σ fill.qty` (BUY) or
`Σ fill.quoteQty` (SELL) minus `Σ fill.commission` exactly when
`c` is the hop's destination asset — and this amount, never a fresh
simulation, is what the next hop receives. -/
theorem c1_fill_accounting (env : ExecEnv) (i : ℕ)
    (asset_from asset_to : String) (a a2 : ℚ) (sym side : String)
    (fills : List Fill) (c : String)
    (hres : get_symbol_and_side env.tickers asset_from asset_to
      = some (sym, side))
    (horder : env.orders i = some fills)
    (hall : ∀ f ∈ fills, f.commissionAsset = c)
    (hstep : hop_step env i asset_from asset_to a = some a2) :
    (side = "BUY" →
      a2 = (fills.map Fill.qty).sum
        - (if c = asset_to then (fills.map Fill.commission).sum else 0)) ∧
    (side ≠ "BUY" →
      a2 = (fills.map Fill.quoteQty).sum
        - (if c = asset_to then (fills.map Fill.commission).sum else 0)) ∧
    (∀ rest, exec_amounts env ((asset_from, asset_to) :: rest) i a
      = a2 :: exec_amounts env rest (i + 1) a2) := by
  have hmain : update_amount_from_fills side asset_to fills = a2 ∧ fills ≠ [] := by
    simp only [hop_step, hres, horder] at hstep
    split at hstep
    · exact Option.noConfusion hstep
    · split at hstep
      · exact Option.noConfusion hstep
      · rename_i hfills
        split at hstep
        · exact Option.noConfusion hstep
        · exact ⟨Option.some.inj hstep, hfills⟩
  obtain ⟨hupd, hne⟩ := hmain
  have hlast : (fills.map Fill.commissionAsset).getLastD "" = c :=
    getLastD_of_all_eq (by simpa using hne)
      (fun x hx => by
        obtain ⟨f, hf, rfl⟩ := List.mem_map.1 hx
        exact hall f hf)
  refine ⟨?_, ?_, ?_⟩
  · intro hside
    rw [← hupd, update_amount_from_fills, if_pos hside, fills_fold,
      fills_fold_go, hlast]
    by_cases hc : c = asset_to
    · rw [if_pos hc, if_pos hc]
      ring
    · rw [if_neg hc, if_neg hc]
      ring
  · intro hside
    rw [← hupd, update_amount_from_fills, if_neg hside, fills_fold,
      fills_fold_go, hlast]
    by_cases hc : c = asset_to
    · rw [if_pos hc, if_pos hc]
      ring
    · rw [if_neg hc, if_neg hc]
      ring
  · intro rest
    simp only [exec_amounts, hstep]

theorem c1_fill_accounting_witness :
    (("BUY" : String) = "BUY" →
      (1999/2000 : ℚ)
        = ([(⟨1, 2000, 1/2000, "A"⟩ : Fill)].map Fill.qty).sum
          - (if ("A" : String) = "A"
             then ([(⟨1, 2000, 1/2000, "A"⟩ : Fill)].map
               Fill.commission).sum
             else 0)) ∧
    (("BUY" : String) ≠ "BUY" →
      (1999/2000 : ℚ)
        = ([(⟨1, 2000, 1/2000, "A"⟩ : Fill)].map Fill.quoteQty).sum
          - (if ("A" : String) = "A"
             then ([(⟨1, 2000, 1/2000, "A"⟩ : Fill)].map
               Fill.commission).sum
             else 0)) ∧
    (∀ rest, exec_amounts
        ⟨[("AB", ⟨some 2000, some 2001⟩)], fun _ => none,
          fun _ => some [⟨1, 2000, 1/2000, "A"⟩]⟩
        (("B", "A") :: rest) 0 2000
      = 1999/2000 :: exec_amounts
          ⟨[("AB", ⟨some 2000, some 2001⟩)], fun _ => none,
            fun _ => some [⟨1, 2000, 1/2000, "A"⟩]⟩
          rest 1 (1999/2000)) := by
  have hres : get_symbol_and_side
      [("AB", (⟨some 2000, some 2001⟩ : TickerEntry))] "B" "A"
      = some ("AB", "BUY") := rfl
  refine c1_fill_accounting
    ⟨[("AB", ⟨some 2000, some 2001⟩)], fun _ => none,
      fun _ => some [⟨1, 2000, 1/2000, "A"⟩]⟩
    0 "B" "A" 2000 (1999/2000) "AB" "BUY" [⟨1, 2000, 1/2000, "A"⟩] "A"
    hres rfl (by simp) ?_
  simp only [hop_step, hres, adjust_quantity_to_filters]
  norm_num [update_amount_from_fills, fills_fold]

/-! ### `_handle_request_errors` (`src/api_client.py:39-99`) -/

/-- Outcome of one attempt of a wrapped REST call: success with data, a
`BinanceAPIException` with its HTTP status and optional `Retry-After`
header, or a `requests.RequestException` connection failure. -/
inductive ApiOutcome (α : Type) where
  | ok (data : α)
  | clientError (status : ℕ) (retryAfter : Option ℕ)
  | connError
deriving DecidableEq

/-- The client state touched by the error handler: which endpoint the
spot client points at, and how many clock re-syncs have run. -/
structure ClientState where
  endpoint : ℕ
  resyncs : ℕ
deriving DecidableEq, Repr

/-- `ApiClient._perform_failover` (`src/api_client.py:166-172`): advance
the endpoint cycle and re-sync the server clock. -/
def perform_failover (st : ClientState) : ClientState :=
  ⟨st.endpoint + 1, st.resyncs + 1⟩

/-- The retry recursion of the `_handle_request_errors` wrapper, driven
by the (finite prefix of the) sequence of attempt outcomes.  Rate-limit
statuses 429/418 sleep `Retry-After` (default 60) and retry on the SAME
state; other client errors and connection errors fail over (which also
re-syncs the clock) and retry.  Returns the data (if the trace reaches a
success), the final client state, and the log of sleeps performed. -/
def handle_request {α : Type} :
    List (ApiOutcome α) → ClientState → List ℕ →
      Option α × ClientState × List ℕ
  | [], st, sleeps => (none, st, sleeps)
  | o :: rest, st, sleeps =>
    match o with
    | .ok data => (some data, st, sleeps)
    | .clientError status retryAfter =>
      if status = 429 ∨ status = 418 then
        handle_request rest st (sleeps ++ [retryAfter.getD 60])
      else
        handle_request rest (perform_failover st) sleeps
    | .connError => handle_request rest (perform_failover st) sleeps

/-- C8: an HTTP 429/418 outcome makes the wrapper sleep for the
`Retry-After` duration (60 when the header is absent) and retry the same
call on the same endpoint with no failover and no clock re-sync; and a
whole run whose failures are all rate-limit errors ends on the first
success with the client state exactly as it started, having slept the
`Retry-After` of each error. -/
theorem c8_rate_limit_retry {α : Type} (rest : List (ApiOutcome α))
    (st : ClientState) (sleeps : List ℕ) (s : ℕ) (ra : Option ℕ)
    (hs : s = 429 ∨ s = 418) :
    handle_request (ApiOutcome.clientError s ra :: rest) st sleeps
      = handle_request rest st (sleeps ++ [ra.getD 60]) ∧
    (∀ (errs : List (ℕ × Option ℕ)) (d : α) (tail : List (ApiOutcome α)),
      (∀ e ∈ errs, e.1 = 429 ∨ e.1 = 418) →
      handle_request
          (errs.map (fun e => ApiOutcome.clientError e.1 e.2)
            ++ ApiOutcome.ok d :: tail) st sleeps
        = (some d, st, sleeps ++ errs.map (fun e => e.2.getD 60))) := by
  constructor
  · simp only [handle_request, if_pos hs]
  · intro errs
    induction errs generalizing sleeps with
    | nil =>
      intro d tail _
      simp [handle_request]
    | cons e es ih =>
      intro d tail hall
      simp only [List.map_cons, List.cons_append, handle_request,
        if_pos (hall e (List.mem_cons_self e es))]
      have hrec := ih (sleeps ++ [e.2.getD 60]) d tail
        (fun x hx => hall x (List.mem_cons_of_mem e hx))
      simpa [List.append_assoc] using hrec

theorem c8_rate_limit_retry_witness :
    handle_request
        [ApiOutcome.clientError (α := ℕ) 429 (some 7), ApiOutcome.ok 5]
        ⟨0, 0⟩ []
      = handle_request [ApiOutcome.ok 5] ⟨0, 0⟩ [7] ∧
    handle_request
        [ApiOutcome.clientError (α := ℕ) 429 (some 7), ApiOutcome.ok 5]
        ⟨0, 0⟩ []
      = (some 5, ⟨0, 0⟩, [7]) := by
  have h := c8_rate_limit_retry (α := ℕ) [ApiOutcome.ok 5] ⟨0, 0⟩ [] 429
    (some 7) (Or.inl rfl)
  refine ⟨by simpa using h.1, ?_⟩
  have h2 := h.2 [(429, some 7)] 5 [] (by simp)
  simpa using h2

/-! ### `DataAnalyzer.build_trading_graph` (`src/data_analyzer.py:121-168`) -/

/-- The fields of one `symbols` entry of the exchange metadata read by
the graph builder.  (The source also tolerates entries missing
`baseAsset`/`quoteAsset`, skipping them exactly like non-TRADING ones;
a missing field can be modelled by a non-"TRADING" status without loss
for the claims proved here.) -/
structure SymbolInfo where
  symbol : String
  status : String
  baseAsset : String
  quoteAsset : String
deriving DecidableEq, Repr

/-- The three structures `build_trading_graph` populates. -/
structure GraphState where
  trading_graph : List (String × List String)
  all_assets : List String
  symbol_to_assets_map : List (String × (String × String))
deriving DecidableEq, Repr

def GraphState.empty : GraphState := ⟨[], [], []⟩

/-- Python `dict[k] = v`: overwrite in place, else append. -/
def dictInsert {β : Type} (m : List (String × β)) (k : String) (v : β) :
    List (String × β) :=
  if (m.lookup k).isSome then
    m.map (fun kv => if kv.1 = k then (k, v) else kv)
  else m ++ [(k, v)]

/-- `if k not in graph: graph[k] = []`. -/
def ensureKey (g : List (String × List String)) (k : String) :
    List (String × List String) :=
  if (g.lookup k).isSome then g else g ++ [(k, [])]

/-- `graph[k].append(v)`. -/
def appendAdj (g : List (String × List String)) (k v : String) :
    List (String × List String) :=
  g.map (fun kv => if kv.1 = k then (kv.1, kv.2 ++ [v]) else kv)

/-- Python `set.add`. -/
def addSet (s : List String) (x : String) : List String :=
  if x ∈ s then s else s ++ [x]

/-- The population loop of `build_trading_graph`, run on a cleared state:
every TRADING symbol records its (base, quote) decomposition, adds both
assets, and appends both adjacency directions. -/
def build_graph_from (symbols : List SymbolInfo) : GraphState :=
  symbols.foldl
    (fun st si =>
      if si.status = "TRADING" then
        { symbol_to_assets_map :=
            dictInsert st.symbol_to_assets_map si.symbol
              (si.baseAsset, si.quoteAsset),
          all_assets := addSet (addSet st.all_assets si.baseAsset)
            si.quoteAsset,
          trading_graph :=
            appendAdj
              (appendAdj
                (ensureKey (ensureKey st.trading_graph si.baseAsset)
                  si.quoteAsset)
                si.baseAsset si.quoteAsset)
              si.quoteAsset si.baseAsset }
      else st)
    GraphState.empty

/-- `build_trading_graph`'s retry loop: up to three metadata fetches,
sleeping 10 s after each failed attempt; on the first success the state
is cleared and rebuilt from that snapshot alone; after three failures
the function returns with the state untouched.  Result: (new state,
fetches performed, seconds slept). -/
def build_trading_graph (st : GraphState)
    (fetch : ℕ → Option (List SymbolInfo)) : GraphState × ℕ × ℕ :=
  match fetch 0 with
  | some s => (build_graph_from s, 1, 0)
  | none =>
    match fetch 1 with
    | some s => (build_graph_from s, 2, 10)
    | none =>
      match fetch 2 with
      | some s => (build_graph_from s, 3, 20)
      | none => (st, 3, 30)

/-- C9: the builder makes at most three metadata fetches with a
10-second back-off between attempts; when all three fail it returns with
the graph state untouched (so an initially empty graph remains empty,
and no failed build ever partially modifies the maps); when attempt `k`
succeeds the state is replaced wholesale by the graph built from that
fresh snapshot, independent of the previous state. -/
theorem c9_build_graph_retry (st : GraphState)
    (fetch : ℕ → Option (List SymbolInfo)) :
    (build_trading_graph st fetch).2.1 ≤ 3 ∧
    (fetch 0 = none → fetch 1 = none → fetch 2 = none →
      build_trading_graph st fetch = (st, 3, 30)) ∧
    (∀ s, fetch 0 = some s →
      build_trading_graph st fetch = (build_graph_from s, 1, 0)) ∧
    (∀ s, fetch 0 = none → fetch 1 = some s →
      build_trading_graph st fetch = (build_graph_from s, 2, 10)) ∧
    (∀ s, fetch 0 = none → fetch 1 = none → fetch 2 = some s →
      build_trading_graph st fetch = (build_graph_from s, 3, 20)) := by
  refine ⟨?_, ?_, ?_, ?_, ?_⟩
  · rw [build_trading_graph]
    match h0 : fetch 0 with
    | some s => exact by norm_num
    | none =>
      match h1 : fetch 1 with
      | some s => exact by norm_num
      | none =>
        match h2 : fetch 2 with
        | some s => exact le_refl 3
        | none => exact le_refl 3
  · intro h0 h1 h2
    rw [build_trading_graph, h0, h1, h2]
  · intro s h0
    rw [build_trading_graph, h0]
  · intro s h0 h1
    rw [build_trading_graph, h0, h1]
  · intro s h0 h1 h2
    rw [build_trading_graph, h0, h1, h2]

theorem c9_build_graph_retry_witness :
    build_trading_graph GraphState.empty
        (fun n => match n with
          | 0 => none
          | _ => some [⟨"BTCUSDT", "TRADING", "BTC", "USDT"⟩])
      = (build_graph_from [⟨"BTCUSDT", "TRADING", "BTC", "USDT"⟩], 2, 10)
    ∧ build_trading_graph GraphState.empty (fun _ => none)
      = (GraphState.empty, 3, 30) :=
  ⟨(c9_build_graph_retry GraphState.empty _).2.2.2.1
      [⟨"BTCUSDT", "TRADING", "BTC", "USDT"⟩] rfl rfl,
    (c9_build_graph_retry GraphState.empty (fun _ => none)).2.1
      rfl rfl rfl⟩

end Hydra
